import Mathlib

/-!
Verification development for the swarm-orchestration core:
`swarm/orchestrator/coordinator.py` (SwarmCoordinator, role assignment,
workflow execution) and `swarm/orchestrator/result_aggregator.py`
(ResultAggregator, aggregation strategies, validation).

Conventions of the shallow embedding:
* Python dictionaries (`Dict[str, Any]`) become insertion-ordered
  association lists `List (String × α)`; `d[k] = v` is `alSet`,
  `k in d` / `d[k]` is `alLookup`, `del d[k]` is `alRemove`,
  `d.update(u)` is `alUpdate`.
* Python `Any` output values become the tagged union `Value`
  (string / integer / boolean), with `valueStr` playing the part of
  Python `str(...)`.
* Python floats (confidences, scores) are modelled as exact rationals.
* Exceptions are modelled with `Except String`; a raised exception is
  `Except.error msg`.
* Wall-clock data (durations, timestamps) carried by the dataclasses is
  not represented: no claim depends on it.
-/

/-- Tagged union standing in for the dynamic (`Any`) values the Python
code stores in output maps. -/
inductive Value
  | str (s : String)
  | int (n : Int)
  | bool (b : Bool)
  deriving DecidableEq, Repr

/-- Python `str(value)` on the values representable by `Value`. -/
def valueStr : Value → String
  | .str s => s
  | .int n => toString n
  | .bool b => if b then "True" else "False"

/-- Lookup in an insertion-ordered association list (Python `d[k]` /
`k in d`): first binding wins; a Python dict's keys are unique anyway. -/
def alLookup {α : Type} : List (String × α) → String → Option α
  | [], _ => none
  | (k', v') :: rest, k => if k' = k then some v' else alLookup rest k

/-- Python `d[k] = v`: update the existing binding in place (keeping its
position), or append a new binding at the end. -/
def alSet {α : Type} : List (String × α) → String → α → List (String × α)
  | [], k, v => [(k, v)]
  | (k', v') :: rest, k, v =>
    if k' = k then (k', v) :: rest else (k', v') :: alSet rest k v

/-- Python `del d[k]`: remove the (first) binding for `k`. -/
def alRemove {α : Type} : List (String × α) → String → List (String × α)
  | [], _ => []
  | (k', v') :: rest, k => if k' = k then rest else (k', v') :: alRemove rest k

/-- Python `d.update(u)`: set every binding of `u` into `d`, in order. -/
def alUpdate {α : Type} (d u : List (String × α)) : List (String × α) :=
  u.foldl (fun d kv => alSet d kv.1 kv.2) d

/-- The value of the last write of `key` in a flat list of writes
(`none` when `key` is never written).  Independent single-pass
formulation of "last write wins", used as the specification side of the
merge theorems. -/
def lookupLast {α : Type} (writes : List (String × α)) (key : String) : Option α :=
  writes.foldl (fun acc kv => if kv.1 = key then some kv.2 else acc) none

/-! ## Coordinator data model (`swarm/orchestrator/coordinator.py`) -/

/-- `ExecutionStatus` enum from `coordinator.py`. -/
inductive ExecutionStatus
  | pending
  | running
  | completed
  | failed
  | cancelled
  deriving DecidableEq, Repr

/-- `Role` dataclass from `coordinator.py`. -/
structure Role where
  name : String
  capabilities : List String
  responsibilities : List String
  dependencies : List String
  deriving DecidableEq, Repr

/-- `Agent` dataclass from `coordinator.py`. -/
structure Agent where
  agent_id : String
  name : String
  capabilities : List String
  current_role : Option Role
  status : String
  deriving DecidableEq, Repr

/-- `Agent.can_perform_role`: `all(cap in self.capabilities for cap in
role.capabilities[:3])` — only the first three required capabilities are
checked. -/
def canPerformRole (agent : Agent) (role : Role) : Bool :=
  (role.capabilities.take 3).all (fun cap => agent.capabilities.contains cap)

/-- `Agent.assign_role`: on success, mutates the agent (current role and
status) and returns `True`; returns the agent unchanged and `False`
otherwise.  The in-place mutation is modelled by returning the updated
agent. -/
def assignRole (agent : Agent) (role : Role) : Agent × Bool :=
  if canPerformRole agent role then
    ({ agent with current_role := some role, status := "assigned" }, true)
  else
    (agent, false)

/-- The fitness score used by `SwarmCoordinator._assign_roles`:
`len(set(agent.capabilities) & set(role.capabilities))`, the size of the
set intersection of the agent's and the role's full capability lists. -/
def overlapScore (agent : Agent) (role : Role) : Nat :=
  ((agent.capabilities.dedup).filter (fun c => role.capabilities.contains c)).length

/-- The inner loop of `_assign_roles` selecting the best agent for one
role: scan the still-available agents in order; among the agents that can
perform the role, keep the first one whose overlap score strictly exceeds
the best score so far (which starts at 0). -/
def pickBest (available : List Agent) (role : Role) : Option Agent × Nat :=
  available.foldl
    (fun acc agent =>
      if canPerformRole agent role then
        if overlapScore agent role > acc.2 then (some agent, overlapScore agent role) else acc
      else acc)
    (none, 0)

/-- Replace the first occurrence of `a` in the list by `b` (models the
in-place mutation of the selected agent object sitting in the `available`
list). -/
def replaceFirst : List Agent → Agent → Agent → List Agent
  | [], _, _ => []
  | x :: rest, a, b => if x = a then b :: rest else x :: replaceFirst rest a b

/-- Remove the first occurrence of `a` (Python `list.remove`). -/
def removeFirst : List Agent → Agent → List Agent
  | [], _ => []
  | x :: rest, a => if x = a then rest else x :: removeFirst rest a

/-- The state change of `available` in one `_assign_roles` iteration:
`best_agent.assign_role(role)` mutates the selected object in place (so
the copy held by the list changes too), then `available.remove(best_agent)`
removes the first element equal to the now-mutated agent. -/
def consumeAgent (available : List Agent) (best assigned : Agent) : List Agent :=
  removeFirst (replaceFirst available best assigned) assigned

/-- `SwarmCoordinator._assign_roles`: greedily assign each role (in list
order) to the best still-available agent; a role with no agent of
positive score is skipped.  Returns the `role.name -> Agent` mapping (in
insertion order) together with the remaining available pool. -/
def assignRolesInternal : List Role → List Agent → List (String × Agent) × List Agent
  | [], available => ([], available)
  | role :: rest, available =>
    match (pickBest available role).1 with
    | some best =>
      let assigned := (assignRole best role).1
      let next := assignRolesInternal rest (consumeAgent available best assigned)
      ((role.name, assigned) :: next.1, next.2)
    | none => assignRolesInternal rest available

/-- `RoleRequirements` from `coordinator.py`. -/
structure RoleRequirements where
  required_roles : List String
  min_capabilities : List (String × Nat)
  deriving DecidableEq, Repr

/-- `SwarmCoordinator._calculate_role_fitness`: placeholder returning the
constant 0.5 (written `mkRat 1 2`, the normalized rational 1/2, so that
the definition evaluates by kernel reduction). -/
def calculateRoleFitness (_agent : Agent) (_roleName : String) : ℚ := mkRat 1 2

/-- The inner loop of the public `SwarmCoordinator.assign_roles`.  Its
first statement, `if agent in assignments:`, hashes `agent` as a dict
key.  `Agent` is an `eq=True`, non-frozen dataclass, so Python sets its
`__hash__` to `None` and the containment check raises
`TypeError: unhashable type: 'Agent'` on the very first iteration,
before the fitness comparison can run.  With an empty agent list the
loop body never runs and the initial `(None, 0)` stands.  The raised
exception is modelled as `Except.error`. -/
def pickBestPublic (agents : List Agent) (_assignments : List (Agent × Role))
    (_roleName : String) : Except String (Option Agent × ℚ) :=
  agents.foldlM
    (fun _acc _agent => Except.error "unhashable type: 'Agent'")
    ((none : Option Agent), (0 : ℚ))

/-- The public `SwarmCoordinator.assign_roles(agents, requirements)`:
for each required role name, run the inner loop over all agents.  Since
the loop body hashes the unhashable `Agent` dataclass, any call with at
least one required role and at least one agent raises `TypeError`; with
no required roles, or with an empty pool, the method returns the empty
mapping.  (The dict assignment `assignments[best_agent] = role` would
also hash the agent, but is unreachable: no agent is ever selected.) -/
def assignRolesPublic (agents : List Agent) (requirements : RoleRequirements) :
    Except String (List (Agent × Role)) :=
  requirements.required_roles.foldlM
    (fun assignments roleName => do
      let best ← pickBestPublic agents assignments roleName
      match best.1 with
      | some b => pure (assignments ++ [(b, Role.mk roleName [] [] [])])
      | none => pure assignments)
    []

/-- A workflow step is a Python `Dict[str, Any]` (with keys such as
`"role"` and `"action"`). -/
abbrev Step : Type := List (String × Value)

/-- `Workflow` dataclass from `coordinator.py`. -/
structure Workflow where
  steps : List Step
  parallel_execution : Bool
  error_handling : String

/-- `SuccessCriteria` dataclass from `coordinator.py` (timeout and
validation rules carry no logic in the core). -/
structure SuccessCriteria where
  required_outputs : List String
  quality_threshold : ℚ

/-- `Assembly` dataclass from `coordinator.py`. -/
structure Assembly where
  name : String
  description : String
  roles : List Role
  workflow : Workflow
  success_criteria : SuccessCriteria
  version : String

/-- The step executor.  In the source, `_execute_step` delegates the real
work to the assigned agents and is a placeholder that always succeeds;
the executor is abstracted as a function from the step and the role
assignments to either an output map or a raised exception, which is the
contract the workflow executor is written against. -/
def StepExec : Type := Step → List (String × Agent) → Except String (List (String × Value))

/-- The sequential branch of `_execute_workflow`: run the steps in order,
merging each success into `outputs` via `dict.update`; on a step's
exception re-raise it when `error_handling == "stop"`, otherwise skip the
step and continue. -/
def runStepsSeq (execStep : StepExec) (ras : List (String × Agent))
    (errorHandling : String) :
    List Step → List (String × Value) → Except String (List (String × Value))
  | [], outputs => .ok outputs
  | s :: rest, outputs =>
    match execStep s ras with
    | .ok r => runStepsSeq execStep ras errorHandling rest (alUpdate outputs r)
    | .error e =>
      if errorHandling = "stop" then .error e
      else runStepsSeq execStep ras errorHandling rest outputs

/-- The parallel branch of `_execute_workflow`: all step results are
gathered first (`asyncio.gather(..., return_exceptions=True)`), then the
results are folded in step order — an exception is re-raised under
`"stop"` and skipped otherwise, a success is merged via `dict.update`. -/
def runStepsPar (errorHandling : String) :
    List (Except String (List (String × Value))) → List (String × Value) →
    Except String (List (String × Value))
  | [], outputs => .ok outputs
  | .ok r :: rest, outputs => runStepsPar errorHandling rest (alUpdate outputs r)
  | .error e :: rest, outputs =>
    if errorHandling = "stop" then .error e
    else runStepsPar errorHandling rest outputs

/-- `SwarmCoordinator._execute_workflow`. -/
def executeWorkflow (execStep : StepExec) (workflow : Workflow)
    (ras : List (String × Agent)) : Except String (List (String × Value)) :=
  if workflow.parallel_execution then
    runStepsPar workflow.error_handling (workflow.steps.map (fun s => execStep s ras)) []
  else
    runStepsSeq execStep ras workflow.error_handling workflow.steps []

/-- `Contribution` dataclass (the duration field, wall-clock data, is not
modelled). -/
structure Contribution where
  agent_id : String
  role_name : String
  outputs : List (String × Value)
  quality_score : ℚ
  deriving DecidableEq, Repr

/-- `SwarmCoordinator._collect_contributions`: one placeholder
contribution per assigned agent, keyed by agent id. -/
def collectContributions (ras : List (String × Agent)) : List (String × Contribution) :=
  ras.foldl
    (fun acc rn_ag =>
      alSet acc rn_ag.2.agent_id
        (Contribution.mk rn_ag.2.agent_id rn_ag.1 [] (17 / 20)))
    []

/-- `SwarmCoordinator._validate_results`: every required output key must
be present in the merged outputs. -/
def validateResults (outputs : List (String × Value)) (criteria : SuccessCriteria) : Bool :=
  criteria.required_outputs.all (fun req => (alLookup outputs req).isSome)

/-- `AssemblyResult` dataclass (duration and timestamps, wall-clock data,
are not modelled). -/
structure AssemblyResult where
  assembly_name : String
  status : ExecutionStatus
  outputs : List (String × Value)
  agent_contributions : List (String × Contribution)
  error_message : Option String
  deriving DecidableEq, Repr

/-- The body of the `try:` block of `SwarmCoordinator.execute_assembly`:
assign roles (raising `ValueError` when the mapping is empty), execute
the workflow, collect contributions, validate against the success
criteria, and build the result with status `COMPLETED` or `FAILED`.
`Except.error` stands for an exception escaping the block. -/
def executeAssemblyTry (agents : List Agent) (execStep : StepExec)
    (assembly : Assembly) : Except String AssemblyResult := do
  let ras := (assignRolesInternal assembly.roles agents).1
  if ras.isEmpty then
    throw "Failed to assign all required roles"
  else
    let outputs ← executeWorkflow execStep assembly.workflow ras
    let contributions := collectContributions ras
    let success := validateResults outputs assembly.success_criteria
    pure (AssemblyResult.mk assembly.name
      (if success then ExecutionStatus.completed else ExecutionStatus.failed)
      outputs contributions none)

/-- `SwarmCoordinator.execute_assembly`: the `except Exception` handler
converts any exception from the `try:` block into a `FAILED` result with
empty outputs and contributions, carrying `str(e)` as the error
message. -/
def executeAssembly (agents : List Agent) (execStep : StepExec)
    (assembly : Assembly) : AssemblyResult :=
  match executeAssemblyTry agents execStep assembly with
  | .ok r => r
  | .error e =>
    AssemblyResult.mk assembly.name ExecutionStatus.failed [] [] (some e)

/-! ## Result aggregator (`swarm/orchestrator/result_aggregator.py`) -/

/-- `AggregationStrategy` enum. -/
inductive AggregationStrategy
  | merge
  | vote
  | consensus
  | weighted
  | best
  | sequential
  deriving DecidableEq, Repr

/-- `AgentOutput` dataclass (metadata and timestamp carry no logic). -/
structure AgentOutput where
  agent_id : String
  role_name : String
  output_data : List (String × Value)
  confidence : ℚ
  deriving DecidableEq, Repr

/-- `AgentOutput.validate`: the output map must be non-empty and the
confidence must lie in [0, 1]. -/
def AgentOutput.validate (o : AgentOutput) : Bool :=
  if o.output_data.isEmpty then false
  else if o.confidence < 0 || o.confidence > 1 then false
  else true

/-- A conflict record.  The Python code uses heterogeneous dicts: merge
and consensus conflicts carry `key`/`values`/`agents`, vote conflicts
carry `key`/`values`/`votes`; the unused list is empty. -/
structure Conflict where
  key : String
  values : List Value
  agents : List String
  votes : List Nat
  deriving DecidableEq, Repr

/-- `AggregatedResult` dataclass (the metadata dict carries only
statistics echoed from the computation; the fields used by the claims
are kept). -/
structure AggregatedResult where
  outputs : List (String × Value)
  contributing_agents : List String
  confidence : ℚ
  strategy_used : AggregationStrategy
  conflicts : List Conflict
  deriving DecidableEq, Repr

/-- `ResultAggregator._empty_result`. -/
def emptyResult (strategy : AggregationStrategy) : AggregatedResult :=
  AggregatedResult.mk [] [] 0 strategy []

/-- Sum of the contributors' confidences (Python
`sum(o.confidence for o in outputs)`). -/
def sumConfidence (outputs : List AgentOutput) : ℚ :=
  outputs.foldl (fun acc o => acc + o.confidence) 0

/-- The `next(o.agent_id for o in outputs if key in o.output_data and
o.output_data[key] == merged[key])` generator in `_merge_strategy`: the
first listed agent whose output for `key` equals the currently merged
value.  (The generator always finds one, because the merged value was
written by some output; `""` is an unreachable placeholder.) -/
def firstAgentFor (outputs : List AgentOutput) (key : String) (v : Value) : String :=
  ((outputs.find? (fun o => alLookup o.output_data key == some v)).map
    (fun o => o.agent_id)).getD ""

/-- One `_merge_strategy` iteration over a single contributor's items:
a binding that collides with a different already-merged value appends a
conflict record before (unconditionally) overwriting the merged value. -/
def mergeOne (outputs : List AgentOutput)
    (acc : List (String × Value) × List Conflict) (o : AgentOutput) :
    List (String × Value) × List Conflict :=
  o.output_data.foldl
    (fun acc kv =>
      let conflicts :=
        match alLookup acc.1 kv.1 with
        | some mv =>
          if mv ≠ kv.2 then
            acc.2 ++ [Conflict.mk kv.1 [mv, kv.2] [firstAgentFor outputs kv.1 mv, o.agent_id] []]
          else acc.2
        | none => acc.2
      (alSet acc.1 kv.1 kv.2, conflicts))
    acc

/-- `ResultAggregator._merge_strategy`. -/
def mergeStrategy (outputs : List AgentOutput) : AggregatedResult :=
  let merged := outputs.foldl (mergeOne outputs) ([], [])
  AggregatedResult.mk merged.1 (outputs.map (fun o => o.agent_id))
    (sumConfidence outputs / outputs.length) AggregationStrategy.merge merged.2

/-- Increment the tally of one stringified value inside a per-key vote
dict (`votes[key][value_str] = votes[key].get(value_str, 0) + 1`). -/
def bumpVote : List (String × Nat) → String → List (String × Nat)
  | [], vs => [(vs, 1)]
  | (s, c) :: rest, vs =>
    if s = vs then (s, c + 1) :: rest else (s, c) :: bumpVote rest vs

/-- Record one vote for `valueStr v` under `key` in the two-level vote
dict. -/
def voteAdd (votes : List (String × List (String × Nat))) (key : String) (vs : String) :
    List (String × List (String × Nat)) :=
  match alLookup votes key with
  | none => alSet votes key [(vs, 1)]
  | some kvotes => alSet votes key (bumpVote kvotes vs)

/-- The vote-collection loop of `_vote_strategy`: tally, per key, how
many contributors wrote each stringified value. -/
def tallyVotes (outputs : List AgentOutput) : List (String × List (String × Nat)) :=
  outputs.foldl
    (fun votes o => o.output_data.foldl (fun votes kv => voteAdd votes kv.1 (valueStr kv.2)) votes)
    []

/-- The element `sorted(votes[key].items(), key=count, reverse=True)[0]`:
Python's sort is stable, so descending order followed by `[0]` selects
the first-encountered value whose count is maximal.  Modelled directly as
a fold that replaces the candidate only on a strictly greater count. -/
def argmaxFirst : List (String × Nat) → Option (String × Nat)
  | [] => none
  | x :: rest => some (rest.foldl (fun best y => if y.2 > best.2 then y else best) x)

/-- The winning stringified value for one key (`sorted_votes[0][0]`);
`""` is unreachable because every tallied key has at least one vote. -/
def voteWinner (kvotes : List (String × Nat)) : String :=
  ((argmaxFirst kvotes).map (fun p => p.1)).getD ""

/-- The largest vote count for one key (Python `max(v.values())`;
also `sorted_votes[0][1]`). -/
def maxCount (kvotes : List (String × Nat)) : Nat :=
  kvotes.foldl (fun acc p => max acc p.2) 0

/-- The tie conflict of `_vote_strategy` for one key: when the two top
sorted entries have equal counts — i.e. at least two values attain the
maximal count — record the first two such values (in first-encountered
order, by stability) and their counts. -/
def tieConflict (key : String) (kvotes : List (String × Nat)) : List Conflict :=
  let tied := kvotes.filter (fun p => p.2 = maxCount kvotes)
  if 2 ≤ tied.length then
    [Conflict.mk key ((tied.take 2).map (fun p => Value.str p.1)) []
      ((tied.take 2).map (fun p => p.2))]
  else []

/-- `sum(sum(v.values()) for v in votes.values())`. -/
def totalVotes (votes : List (String × List (String × Nat))) : Nat :=
  votes.foldl (fun acc p => acc + (p.2.foldl (fun a q => a + q.2) 0)) 0

/-- `sum(max(v.values()) for v in votes.values())`. -/
def winningVotes (votes : List (String × List (String × Nat))) : Nat :=
  votes.foldl (fun acc p => acc + maxCount p.2) 0

/-- `ResultAggregator._vote_strategy`.  The winner-determination loop
fills the result dict and the conflict list independently per key, so it
is rendered as a map (result) plus a flat-map (conflicts) over the tally;
the per-key computations match the loop body.  (The Python loop iterates
over the set `all_keys`, whose iteration order is unspecified; here keys
are processed in first-appearance order.) -/
def voteStrategy (outputs : List AgentOutput) : AggregatedResult :=
  let votes := tallyVotes outputs
  let result := votes.map (fun p => (p.1, Value.str (voteWinner p.2)))
  let conflicts := votes.foldl (fun acc p => acc ++ tieConflict p.1 p.2) []
  let total := totalVotes votes
  let confidence : ℚ := if total > 0 then (winningVotes votes : ℚ) / (total : ℚ) else 0
  AggregatedResult.mk result (outputs.map (fun o => o.agent_id)) confidence
    AggregationStrategy.vote conflicts

/-- The loop body of `_consensus_strategy` for one key/value pair of a
later contributor: a key present in the running consensus with a
different value is removed from the consensus and recorded as a conflict
(attributed to the first contributor `firstId` and the current
contributor `oid`); keys absent from the consensus are ignored. -/
def consensusStep (firstId oid : String)
    (acc : List (String × Value) × List Conflict) (kv : String × Value) :
    List (String × Value) × List Conflict :=
  match alLookup acc.1 kv.1 with
  | some cv =>
    if cv ≠ kv.2 then
      (alRemove acc.1 kv.1,
       acc.2 ++ [Conflict.mk kv.1 [cv, kv.2] [firstId, oid] []])
    else acc
  | none => acc

/-- One `_consensus_strategy` iteration over a later contributor's
items. -/
def consensusOne (firstId : String)
    (acc : List (String × Value) × List Conflict) (o : AgentOutput) :
    List (String × Value) × List Conflict :=
  o.output_data.foldl (consensusStep firstId o.agent_id) acc

/-- The distinct keys seen across all contributors (`all_keys`, a Python
set; its size is what the confidence formula divides by). -/
def allKeys (outputs : List AgentOutput) : List String :=
  (outputs.foldl (fun acc o => acc ++ o.output_data.map Prod.fst) []).dedup

/-- `ResultAggregator._consensus_strategy`. -/
def consensusStrategy (outputs : List AgentOutput) : AggregatedResult :=
  match outputs with
  | [] => emptyResult AggregationStrategy.consensus
  | first :: rest =>
    let cc := rest.foldl (consensusOne first.agent_id) (first.output_data, [])
    let keys := allKeys (first :: rest)
    let confidence : ℚ := if keys.isEmpty then 0 else (cc.1.length : ℚ) / (keys.length : ℚ)
    AggregatedResult.mk cc.1 ((first :: rest).map (fun o => o.agent_id)) confidence
      AggregationStrategy.consensus cc.2

/-- The per-key candidate list of `_weighted_strategy`
(`weights[key].append((value, output.confidence))`). -/
def weightLists (outputs : List AgentOutput) : List (String × List (Value × ℚ)) :=
  outputs.foldl
    (fun weights o =>
      o.output_data.foldl
        (fun weights kv =>
          match alLookup weights kv.1 with
          | none => alSet weights kv.1 [(kv.2, o.confidence)]
          | some l => alSet weights kv.1 (l ++ [(kv.2, o.confidence)]))
        weights)
    []

/-- Python `max(l, key=...)`: the first element attaining the maximal
key (replace only on strictly greater). -/
def maxByWeight : List (Value × ℚ) → Option (Value × ℚ)
  | [] => none
  | x :: rest => some (rest.foldl (fun best y => if y.2 > best.2 then y else best) x)

/-- `ResultAggregator._weighted_strategy`: per key, the value reported
with the highest individual confidence wins; no conflicts are recorded. -/
def weightedStrategy (outputs : List AgentOutput) : AggregatedResult :=
  let weights := weightLists outputs
  let chosen := weights.map (fun p => (p.1, (((maxByWeight p.2).map Prod.fst).getD (Value.str ""))))
  AggregatedResult.mk chosen (outputs.map (fun o => o.agent_id))
    (sumConfidence outputs / outputs.length) AggregationStrategy.weighted []

/-- Python `max(outputs, key=lambda o: o.confidence)`: first output with
maximal confidence. -/
def maxByConfidence : List AgentOutput → Option AgentOutput
  | [] => none
  | x :: rest => some (rest.foldl (fun best y => if y.confidence > best.confidence then y else best) x)

/-- `ResultAggregator._best_strategy`. -/
def bestStrategy (outputs : List AgentOutput) : AggregatedResult :=
  match maxByConfidence outputs with
  | none => emptyResult AggregationStrategy.best
  | some best =>
    AggregatedResult.mk best.output_data [best.agent_id] best.confidence
      AggregationStrategy.best []

/-- `ResultAggregator._sequential_strategy`: pure last-write-wins over
the contributors in order. -/
def sequentialStrategy (outputs : List AgentOutput) : AggregatedResult :=
  let result := outputs.foldl (fun acc o => alUpdate acc o.output_data) []
  AggregatedResult.mk result (outputs.map (fun o => o.agent_id))
    (sumConfidence outputs / outputs.length) AggregationStrategy.sequential []

/-- `ResultAggregator.aggregate`: filter out invalid outputs, return the
empty result when none are valid, then dispatch on the strategy. -/
def aggregate (agentOutputs : List AgentOutput) (strategy : AggregationStrategy) :
    AggregatedResult :=
  let valid := agentOutputs.filter (fun o => o.validate)
  if valid.isEmpty then emptyResult strategy
  else
    match strategy with
    | .merge => mergeStrategy valid
    | .vote => voteStrategy valid
    | .consensus => consensusStrategy valid
    | .weighted => weightedStrategy valid
    | .best => bestStrategy valid
    | .sequential => sequentialStrategy valid

/-- The validation requirements dict consumed by
`ResultAggregator.validate_result` (`requirements.get(..., default)`):
absent entries fall back to defaults `[]`, `3`, `0.7`. -/
structure Requirements where
  required_outputs : Option (List String)
  max_conflicts : Option Nat
  min_confidence : Option ℚ
  deriving DecidableEq, Repr

/-- `ValidationResult` dataclass. -/
structure ValidationResult where
  is_valid : Bool
  errors : List String
  warnings : List String
  quality_score : ℚ
  deriving DecidableEq, Repr

/-- The missing-required-output errors of `validate_result`, in required
key order. -/
def missingKeyErrors (result : AggregatedResult) (requiredKeys : List String) : List String :=
  (requiredKeys.filter (fun k => (alLookup result.outputs k).isNone)).map
    (fun k => "Missing required output: " ++ k)

/-- `ResultAggregator.validate_result`: missing required keys are errors;
conflicts beyond `max_conflicts` are an error and otherwise a warning;
confidence below `min_confidence` is an error.  Quality score is the
confidence minus 0.1 per error and 0.05 per warning, clamped to [0, 1];
validity means no errors.  (The numeric parts of the message strings are
elided; only the counts matter.) -/
def validateResult (result : AggregatedResult) (requirements : Requirements) :
    ValidationResult :=
  let missing := missingKeyErrors result (requirements.required_outputs.getD [])
  let conflictThreshold := requirements.max_conflicts.getD 3
  let conflictErrors :=
    if result.conflicts.length > 0 then
      if result.conflicts.length > conflictThreshold then ["Too many conflicts"] else []
    else []
  let conflictWarnings :=
    if result.conflicts.length > 0 then
      if result.conflicts.length > conflictThreshold then [] else ["Found conflicts"]
    else []
  let minConfidence := requirements.min_confidence.getD (7 / 10)
  let confidenceErrors :=
    if result.confidence < minConfidence then ["Confidence below threshold"] else []
  let errors := missing ++ conflictErrors ++ confidenceErrors
  let warnings := conflictWarnings
  let quality : ℚ :=
    max 0 (min 1 (result.confidence - errors.length * (1 / 10) - warnings.length * (1 / 20)))
  ValidationResult.mk (errors.length = 0) errors warnings quality

/-! ## Specification-side definitions used by the claim theorems -/

/-- Specification-side shape of a `_merge_strategy` conflict entry: the
two recorded values are the value merged for the key at collision time
and the colliding contributor's new value; the recorded agents are the
first listed agent whose output for the key equals the merged value, and
the colliding contributor; both values were actually written for that
key by some contributor. -/
def mergeConflictWitnessed (outputs : List AgentOutput) (c : Conflict) : Prop :=
  ∃ mv nv aid,
    c = Conflict.mk c.key [mv, nv] [firstAgentFor outputs c.key mv, aid] []
    ∧ mv ≠ nv
    ∧ (∃ o, o ∈ outputs ∧ o.agent_id = aid ∧ (c.key, nv) ∈ o.output_data)
    ∧ (∃ o, o ∈ outputs ∧ (c.key, mv) ∈ o.output_data)

/-- Requirements with one more required output key appended (used to
state validation monotonicity). -/
def addRequiredKey (requirements : Requirements) (k : String) : Requirements :=
  Requirements.mk (some ((requirements.required_outputs.getD []) ++ [k]))
    requirements.max_conflicts requirements.min_confidence

/-! ## Concrete fixtures used by counterexamples and witnesses -/

/-- An available agent with one capability. -/
def capAgent : Agent := Agent.mk "a1" "A" ["c"] none "available"

/-- A role requiring no capabilities. -/
def caplessRole : Role := Role.mk "r" [] [] []

/-- A role requiring the writing capability. -/
def writerRole : Role := Role.mk "writer" ["w"] [] []

/-- An available agent holding the writing capability. -/
def writerAgent : Agent := Agent.mk "a1" "A" ["w"] none "available"

/-- First workflow step of the stop-policy example. -/
def stepOne : Step := [("n", Value.int 1)]

/-- Second workflow step of the stop-policy example. -/
def stepTwo : Step := [("n", Value.int 2)]

/-- Step executor for the stop-policy example: the first step succeeds
emitting one binding, every other step raises. -/
def stepExecOne : StepExec := fun s _ =>
  if s = stepOne then Except.ok [("k1", Value.str "v1")] else Except.error "step failed"

/-- Sequential two-step assembly with `error_handling="stop"`. -/
def stopAssembly : Assembly :=
  Assembly.mk "asm" "" [writerRole] (Workflow.mk [stepOne, stepTwo] false "stop")
    (SuccessCriteria.mk ["k1"] (8 / 10)) "1.0.0"

/-- Merge contributor writing `k = "v1"`. -/
def mergeOut1 : AgentOutput := AgentOutput.mk "a1" "r1" [("k", Value.str "v1")] (9 / 10)

/-- Merge contributor writing `k = "v2"`. -/
def mergeOut2 : AgentOutput := AgentOutput.mk "a2" "r2" [("k", Value.str "v2")] (8 / 10)

/-- Merge contributor writing `k = "v3"`. -/
def mergeOut3 : AgentOutput := AgentOutput.mk "a3" "r3" [("k", Value.str "v3")] (5 / 10)

/-- Vote contributor: `summary = "x"`, confidence 0.9. -/
def voteOutX1 : AgentOutput := AgentOutput.mk "a1" "r" [("summary", Value.str "x")] (9 / 10)

/-- Vote contributor: `summary = "x"`, confidence 0.8. -/
def voteOutX2 : AgentOutput := AgentOutput.mk "a2" "r" [("summary", Value.str "x")] (8 / 10)

/-- Vote contributor: `summary = "y"`, confidence 0.5. -/
def voteOutY : AgentOutput := AgentOutput.mk "a3" "r" [("summary", Value.str "y")] (5 / 10)

/-- Vote contributor writing the integer 1. -/
def voteIntOut : AgentOutput := AgentOutput.mk "a1" "r" [("k", Value.int 1)] 1

/-- Vote contributor writing the string "1". -/
def voteStrOut : AgentOutput := AgentOutput.mk "a2" "r" [("k", Value.str "1")] 1

/-- Consensus contributor: plan "p1", budget 100. -/
def consOut1 : AgentOutput :=
  AgentOutput.mk "a1" "r" [("plan", Value.str "p1"), ("budget", Value.int 100)] (9 / 10)

/-- Consensus contributor: plan "p2", budget 100. -/
def consOut2 : AgentOutput :=
  AgentOutput.mk "a2" "r" [("plan", Value.str "p2"), ("budget", Value.int 100)] (8 / 10)

/-- Requirements asking for one role named "r". -/
def reqOneRole : RoleRequirements := RoleRequirements.mk ["r"] []

/-- A role requiring four capabilities. -/
def fourCapRole : Role := Role.mk "r4" ["c1", "c2", "c3", "c4"] [] []

/-- An agent holding only the first three of `fourCapRole`'s
capabilities. -/
def threeCapAgent : Agent := Agent.mk "a1" "A" ["c1", "c2", "c3"] none "available"

/-- An agent holding all four of `fourCapRole`'s capabilities. -/
def fourCapAgent : Agent := Agent.mk "a2" "B" ["c1", "c2", "c3", "c4"] none "available"

/-- A sample aggregated result used by the validation witness. -/
def sampleAgg : AggregatedResult :=
  AggregatedResult.mk [("x", Value.int 1)] ["a1"] (8 / 10) AggregationStrategy.merge []

/-- Sample validation requirements. -/
def sampleReqs : Requirements := Requirements.mk (some ["x"]) none none

/-! ## Association-list lemmas -/

lemma alLookup_alSet {α : Type} (l : List (String × α)) (k k' : String) (v : α) :
    alLookup (alSet l k v) k' = if k' = k then some v else alLookup l k' := by
  induction l with
  | nil =>
    by_cases h : k' = k
    · subst h; simp [alSet, alLookup]
    · simp [alSet, alLookup, h, Ne.symm h]
  | cons hd tl ih =>
    obtain ⟨k₀, v₀⟩ := hd
    by_cases h0 : k₀ = k
    · subst h0
      by_cases h : k' = k₀
      · subst h; simp [alSet, alLookup]
      · simp [alSet, alLookup, h, Ne.symm h]
    · by_cases h : k₀ = k'
      · subst h
        simp [alSet, alLookup, h0]
      · simp [alSet, alLookup, h0, h, ih]

lemma alLookup_eq_none_of_not_mem_keys {α : Type} (l : List (String × α)) (k : String)
    (h : k ∉ l.map Prod.fst) : alLookup l k = none := by
  induction l with
  | nil => rfl
  | cons hd tl ih =>
    obtain ⟨k₀, v₀⟩ := hd
    simp only [List.map_cons, List.mem_cons] at h
    push_neg at h
    simp [alLookup, Ne.symm h.1, ih h.2]

lemma alLookup_alRemove {α : Type} (l : List (String × α)) (k k' : String)
    (hnd : (l.map Prod.fst).Nodup) :
    alLookup (alRemove l k) k' = if k' = k then none else alLookup l k' := by
  induction l with
  | nil => by_cases h : k' = k <;> simp [alRemove, alLookup, h]
  | cons hd tl ih =>
    obtain ⟨k₀, v₀⟩ := hd
    simp only [List.map_cons, List.nodup_cons] at hnd
    by_cases h0 : k₀ = k
    · subst h0
      by_cases h : k' = k₀
      · subst h
        simp [alRemove, alLookup, alLookup_eq_none_of_not_mem_keys tl k' hnd.1]
      · simp [alRemove, alLookup, h, Ne.symm h]
    · by_cases h : k₀ = k'
      · subst h
        simp [alRemove, alLookup, h0]
      · simp [alRemove, alLookup, h0, h, ih hnd.2]

lemma foldl_lastWrite {α : Type} (l : List (String × α)) (k : String) (init : Option α) :
    List.foldl (fun acc kv => if kv.1 = k then some kv.2 else acc) init l
      = (lookupLast l k).orElse (fun _ => init) := by
  induction l generalizing init with
  | nil => cases init <;> simp [lookupLast, Option.orElse]
  | cons hd tl ih =>
    have hcons : lookupLast (hd :: tl) k
        = List.foldl (fun acc kv => if kv.1 = k then some kv.2 else acc)
            (if hd.1 = k then some hd.2 else none) tl := by
      simp [lookupLast]
    rw [List.foldl_cons, ih, hcons, ih]
    rcases hlast : lookupLast tl k with _ | w
    · by_cases h : hd.1 = k <;> cases init <;> simp [h, Option.orElse]
    · simp [Option.orElse]

lemma lookupLast_append {α : Type} (w₁ w₂ : List (String × α)) (k : String) :
    lookupLast (w₁ ++ w₂) k = (lookupLast w₂ k).orElse (fun _ => lookupLast w₁ k) := by
  unfold lookupLast
  rw [List.foldl_append]
  rw [foldl_lastWrite w₂ k]
  rfl

lemma alLookup_alUpdate {α : Type} (u d : List (String × α)) (k : String) :
    alLookup (alUpdate d u) k = (lookupLast u k).orElse (fun _ => alLookup d k) := by
  induction u generalizing d with
  | nil => cases h : alLookup d k <;> simp [alUpdate, lookupLast, Option.orElse, h]
  | cons hd tl ih =>
    have hcons : lookupLast (hd :: tl) k
        = (lookupLast tl k).orElse (fun _ => if hd.1 = k then some hd.2 else none) := by
      unfold lookupLast
      simp only [List.foldl_cons]
      rw [foldl_lastWrite tl k]
      rfl
    show alLookup (alUpdate (alSet d hd.1 hd.2) tl) k = _
    rw [ih, hcons]
    rcases hlast : lookupLast tl k with _ | w
    · by_cases h : hd.1 = k
      · simp [Option.orElse, alLookup_alSet, h]
      · simp [Option.orElse, alLookup_alSet, h, Ne.symm h]
    · simp [Option.orElse]

/-! ## Helper lemmas: role assignment -/

lemma overlapScore_of_caps_nil (agent : Agent) (role : Role)
    (h : role.capabilities = []) : overlapScore agent role = 0 := by
  simp [overlapScore, h]

lemma pickBest_of_caps_nil (available : List Agent) (role : Role)
    (h : role.capabilities = []) : pickBest available role = (none, 0) := by
  unfold pickBest
  induction available with
  | nil => rfl
  | cons a l ih =>
    rw [List.foldl_cons]
    have hstep :
        (if canPerformRole a role then
          if overlapScore a role > (none (α := Agent), 0).2 then
            (some a, overlapScore a role)
          else (none, 0)
        else (none, 0)) = ((none : Option Agent), 0) := by
      simp [overlapScore_of_caps_nil a role h]
    rw [hstep]
    exact ih

lemma assignRolesInternal_capless (roles : List Role) (agents : List Agent)
    (h : ∀ r ∈ roles, r.capabilities = []) :
    (assignRolesInternal roles agents).1 = [] := by
  induction roles generalizing agents with
  | nil => rfl
  | cons role rest ih =>
    have hc := h role (by simp)
    simp only [assignRolesInternal, pickBest_of_caps_nil agents role hc]
    exact ih agents (fun r hr => h r (by simp [hr]))

/-- C2: the claim says a capability-less role is assignable to any
available agent and is not left unassigned when an agent is available.
On the code, the overlap score of a capability-less role is 0 for every
agent and `_assign_roles` only selects agents with score strictly greater
than 0, so the role stays unassigned even with an available agent: here
one available agent, one capability-less role, empty returned mapping. -/
theorem claim2_counterexample :
    [capAgent] ≠ ([] : List Agent)
    ∧ caplessRole.capabilities = []
    ∧ (assignRolesInternal [caplessRole] [capAgent]).1 = [] := by
  decide

/-- C2 (amended): a capability-less role passes every agent's
`can_perform_role` eligibility check, but its overlap score is 0 for
every agent, so `_assign_roles` never selects an agent for it and it is
always left unassigned — even when agents are available. -/
theorem claim2_capless_roles_never_assigned :
    (∀ (agent : Agent) (role : Role), role.capabilities = [] →
      canPerformRole agent role = true)
    ∧ (∀ (available : List Agent) (role : Role), role.capabilities = [] →
      pickBest available role = (none, 0))
    ∧ (∀ (roles : List Role) (agents : List Agent),
      (∀ r ∈ roles, r.capabilities = []) →
      (assignRolesInternal roles agents).1 = []) := by
  refine ⟨?_, ?_, ?_⟩
  · intro agent role h
    simp [canPerformRole, h]
  · intro available role h
    exact pickBest_of_caps_nil available role h
  · intro roles agents h
    exact assignRolesInternal_capless roles agents h

/-- Witness for C2 (amended) at the concrete counterexample input. -/
theorem claim2_witness :
    canPerformRole capAgent caplessRole = true
    ∧ pickBest [capAgent] caplessRole = (none, 0)
    ∧ (assignRolesInternal [caplessRole] [capAgent]).1 = [] :=
  ⟨claim2_capless_roles_never_assigned.1 capAgent caplessRole rfl,
   claim2_capless_roles_never_assigned.2.1 [capAgent] caplessRole rfl,
   claim2_capless_roles_never_assigned.2.2 [caplessRole] [capAgent] (by decide)⟩

/-- C9: `can_perform_role` checks only the first three required
capabilities (truncating the role's capability list to three entries does
not change the verdict); an agent lacking the fourth capability of a
four-capability role is eligible and actually assigned; the overlap
score still counts all capabilities, so an agent holding the fourth
capability scores 4 and beats the three-capability agent. -/
theorem claim9_only_first_three_caps_checked :
    (∀ (agent : Agent) (role : Role),
      canPerformRole agent role
        = canPerformRole agent
            (Role.mk role.name (role.capabilities.take 3)
              role.responsibilities role.dependencies))
    ∧ canPerformRole threeCapAgent fourCapRole = true
    ∧ threeCapAgent.capabilities.contains "c4" = false
    ∧ (assignRolesInternal [fourCapRole] [threeCapAgent]).1
        = [("r4", (assignRole threeCapAgent fourCapRole).1)]
    ∧ overlapScore fourCapAgent fourCapRole = 4
    ∧ pickBest [threeCapAgent, fourCapAgent] fourCapRole = (some fourCapAgent, 4) := by
  refine ⟨?_, by decide, by decide, by decide, by decide, by decide⟩
  intro agent role
  simp [canPerformRole, List.take_take]

/-! ## Helper lemmas: workflow execution -/

lemma runStepsSeq_stop_of_prefix_ok (execStep : StepExec) (ras : List (String × Agent)) :
    ∀ (pre : List Step) (s : Step) (post : List Step) (e : String)
      (outputs : List (String × Value)),
      (∀ s' ∈ pre, ∃ out, execStep s' ras = Except.ok out) →
      execStep s ras = Except.error e →
      runStepsSeq execStep ras "stop" (pre ++ s :: post) outputs = Except.error e := by
  intro pre
  induction pre with
  | nil =>
    intro s post e outputs _ hs
    simp [runStepsSeq, hs]
  | cons p pre ih =>
    intro s post e outputs hok hs
    obtain ⟨out, hout⟩ := hok p (by simp)
    simp only [List.cons_append, runStepsSeq, hout]
    exact ih s post e _ (fun s' h => hok s' (by simp [h])) hs

/-- C1 counterexample: a sequential workflow under `"stop"` whose first
step succeeds emitting `k1` and whose second step fails.  The returned
result has status failed, but — contrary to the claim — the merged
output of the failed result does NOT contain `k1`: the except-handler of
`execute_assembly` builds the failed result with an empty output map, so
the partial outputs are discarded. -/
theorem claim1_counterexample :
    stopAssembly.workflow.error_handling = "stop"
    ∧ stopAssembly.workflow.parallel_execution = false
    ∧ stepExecOne stepOne (assignRolesInternal stopAssembly.roles [writerAgent]).1
        = Except.ok [("k1", Value.str "v1")]
    ∧ stepExecOne stepTwo (assignRolesInternal stopAssembly.roles [writerAgent]).1
        = Except.error "step failed"
    ∧ (executeAssembly [writerAgent] stepExecOne stopAssembly).status
        = ExecutionStatus.failed
    ∧ alLookup (executeAssembly [writerAgent] stepExecOne stopAssembly).outputs "k1"
        = none :=
  ⟨rfl, rfl, rfl, rfl, rfl, rfl⟩

/-- C1 (amended): when a sequential workflow runs under
`error_handling="stop"` and a step fails after earlier steps succeeded,
`execute_assembly` returns an `AssemblyResult` with status failed whose
output map is EMPTY — the outputs merged before the failing step are
discarded by the exception handler, not preserved. -/
theorem claim1_partial_outputs_discarded :
    ∀ (agents : List Agent) (execStep : StepExec) (assembly : Assembly)
      (pre : List Step) (s : Step) (post : List Step) (e : String),
      assembly.workflow.parallel_execution = false →
      assembly.workflow.error_handling = "stop" →
      assembly.workflow.steps = pre ++ s :: post →
      (assignRolesInternal assembly.roles agents).1 ≠ [] →
      (∀ s' ∈ pre, ∃ out,
        execStep s' (assignRolesInternal assembly.roles agents).1 = Except.ok out) →
      execStep s (assignRolesInternal assembly.roles agents).1 = Except.error e →
      executeAssembly agents execStep assembly
        = AssemblyResult.mk assembly.name ExecutionStatus.failed [] [] (some e) := by
  intro agents execStep assembly pre s post e hpar heh hsteps hras hok hs
  have hwf : executeWorkflow execStep assembly.workflow
      (assignRolesInternal assembly.roles agents).1 = Except.error e := by
    unfold executeWorkflow
    rw [hpar, heh, hsteps]
    simp only [Bool.false_eq_true, if_false]
    exact runStepsSeq_stop_of_prefix_ok execStep _ pre s post e [] hok hs
  have hempty : (assignRolesInternal assembly.roles agents).1.isEmpty = false := by
    simpa [List.isEmpty_iff] using hras
  have htry : executeAssemblyTry agents execStep assembly = Except.error e := by
    unfold executeAssemblyTry
    simp [hempty, hwf, Bind.bind, Except.bind]
  simp [executeAssembly, htry]

/-- Witness for C1 (amended) at the concrete counterexample input. -/
theorem claim1_witness :
    executeAssembly [writerAgent] stepExecOne stopAssembly
      = AssemblyResult.mk "asm" ExecutionStatus.failed [] [] (some "step failed") :=
  claim1_partial_outputs_discarded [writerAgent] stepExecOne stopAssembly
    [stepOne] stepTwo [] "step failed" rfl rfl rfl (by decide)
    (fun s' hs' => by
      have h : s' = stepOne := by simpa using hs'
      exact h ▸ ⟨[("k1", Value.str "v1")], rfl⟩)
    rfl

lemma executeAssemblyTry_ok_status (agents : List Agent) (execStep : StepExec)
    (assembly : Assembly) (r : AssemblyResult)
    (h : executeAssemblyTry agents execStep assembly = Except.ok r) :
    r.status = ExecutionStatus.completed ∨ r.status = ExecutionStatus.failed := by
  unfold executeAssemblyTry at h
  by_cases he : (assignRolesInternal assembly.roles agents).1.isEmpty
  · rw [if_pos he] at h
    exact absurd h (by simp [throw, throwThe, MonadExceptOf.throw])
  · rw [if_neg he] at h
    cases hw : executeWorkflow execStep assembly.workflow
        (assignRolesInternal assembly.roles agents).1 with
    | error e =>
      rw [hw] at h
      exact absurd h (by simp [Bind.bind, Except.bind])
    | ok outputs =>
      rw [hw] at h
      simp only [Bind.bind, Except.bind, pure, Except.pure] at h
      cases hv : validateResults outputs assembly.success_criteria with
      | true =>
        left
        cases h
        simp [hv]
      | false =>
        right
        cases h
        simp [hv]

/-- C5: `execute_assembly` never lets an exception escape: whatever the
agents, the step executor and the assembly, it returns a result whose
status is completed or failed; when the try-block raises, the returned
result is a failed one carrying the exception's message in
`error_message`; when the try-block completes, its result is returned
unchanged. -/
theorem claim5_exceptions_become_failed_results :
    ∀ (agents : List Agent) (execStep : StepExec) (assembly : Assembly),
      ((executeAssembly agents execStep assembly).status = ExecutionStatus.completed
        ∨ (executeAssembly agents execStep assembly).status = ExecutionStatus.failed)
      ∧ (∀ e, executeAssemblyTry agents execStep assembly = Except.error e →
          executeAssembly agents execStep assembly
            = AssemblyResult.mk assembly.name ExecutionStatus.failed [] [] (some e))
      ∧ (∀ r, executeAssemblyTry agents execStep assembly = Except.ok r →
          executeAssembly agents execStep assembly = r) := by
  intro agents execStep assembly
  refine ⟨?_, ?_, ?_⟩
  · cases h : executeAssemblyTry agents execStep assembly with
    | ok r =>
      have hst := executeAssemblyTry_ok_status agents execStep assembly r h
      simpa [executeAssembly, h] using hst
    | error e => simp [executeAssembly, h]
  · intro e he
    simp [executeAssembly, he]
  · intro r hr
    simp [executeAssembly, hr]

/-- Witness for C5: with no registered agents, role assignment produces
no assignments, the try-block raises `ValueError`, and the caller still
receives a failed result carrying the message. -/
theorem claim5_witness :
    executeAssemblyTry [] stepExecOne stopAssembly
      = Except.error "Failed to assign all required roles"
    ∧ executeAssembly [] stepExecOne stopAssembly
      = AssemblyResult.mk "asm" ExecutionStatus.failed [] []
          (some "Failed to assign all required roles") :=
  ⟨rfl, (claim5_exceptions_become_failed_results [] stepExecOne stopAssembly).2.1
      "Failed to assign all required roles" rfl⟩

/-! ## Helper lemmas: vote strategy -/

lemma alLookup_map_snd {β γ : Type} (l : List (String × β)) (g : β → γ) (k : String) :
    alLookup (l.map (fun p => (p.1, g p.2))) k = (alLookup l k).map g := by
  induction l with
  | nil => rfl
  | cons hd tl ih =>
    by_cases h : hd.1 = k <;> simp [alLookup, h, ih]

/-- C10: under VOTE, every value stored in the result map is the
stringified form of the winning value; concretely, the integer 1 and the
string "1" (distinct values with equal string form) are tallied as the
same vote, and the non-string contributor value comes back to the caller
as the string `"1"`. -/
theorem claim10_vote_values_stringified :
    (∀ (outputs : List AgentOutput) (key : String) (v : Value),
      alLookup (voteStrategy outputs).outputs key = some v → ∃ s, v = Value.str s)
    ∧ tallyVotes [voteIntOut, voteStrOut] = [("k", [("1", 2)])]
    ∧ (voteStrategy [voteIntOut, voteStrOut]).outputs = [("k", Value.str "1")]
    ∧ Value.int 1 ≠ Value.str "1"
    ∧ valueStr (Value.int 1) = valueStr (Value.str "1") := by
  refine ⟨?_, by decide, by decide, by decide, by decide⟩
  intro outputs key v hv
  have hv' : (alLookup (tallyVotes outputs) key).map
      (fun kv => Value.str (voteWinner kv)) = some v := by
    rw [← alLookup_map_snd]
    exact hv
  cases h : alLookup (tallyVotes outputs) key with
  | none =>
    rw [h] at hv'
    exact Option.noConfusion hv'
  | some kv =>
    rw [h] at hv'
    exact ⟨voteWinner kv, (Option.some.inj hv').symm⟩

/-- Witness for C10 at the concrete two-contributor input. -/
theorem claim10_witness :
    alLookup (voteStrategy [voteIntOut, voteStrOut]).outputs "k" = some (Value.str "1")
    ∧ ∃ s, Value.str "1" = Value.str s :=
  ⟨by decide,
   claim10_vote_values_stringified.1 [voteIntOut, voteStrOut] "k" (Value.str "1") (by decide)⟩

/-! ## Helper lemmas: result validation -/

lemma validateResult_quality (result : AggregatedResult) (requirements : Requirements) :
    (validateResult result requirements).quality_score
      = max 0 (min 1 (result.confidence
          - ((validateResult result requirements).errors.length : ℚ) * (1 / 10)
          - ((validateResult result requirements).warnings.length : ℚ) * (1 / 20))) := rfl

lemma validateResult_addKey (result : AggregatedResult) (requirements : Requirements)
    (k : String) (hk : alLookup result.outputs k = none) :
    (validateResult result (addRequiredKey requirements k)).errors.length
      = (validateResult result requirements).errors.length + 1
    ∧ (validateResult result (addRequiredKey requirements k)).warnings
      = (validateResult result requirements).warnings := by
  constructor
  · simp only [validateResult, addRequiredKey, missingKeyErrors, Option.getD_some,
      List.filter_append, List.map_append, List.length_append]
    simp [hk, Option.isNone]
    omega
  · rfl

/-- C8: the validation quality score equals the result's confidence
minus 0.1 per error and 0.05 per warning, clamped to [0, 1]; validity
holds exactly when the error list is empty; and appending one more
missing required key to the requirements never increases the quality
score. -/
theorem claim8_quality_formula_and_monotonicity :
    ∀ (result : AggregatedResult) (requirements : Requirements),
      (validateResult result requirements).quality_score
        = max 0 (min 1 (result.confidence
            - ((validateResult result requirements).errors.length : ℚ) * (1 / 10)
            - ((validateResult result requirements).warnings.length : ℚ) * (1 / 20)))
      ∧ ((validateResult result requirements).is_valid = true
          ↔ (validateResult result requirements).errors = [])
      ∧ (∀ k, alLookup result.outputs k = none →
          (validateResult result (addRequiredKey requirements k)).quality_score
            ≤ (validateResult result requirements).quality_score) := by
  intro result requirements
  refine ⟨validateResult_quality result requirements, ?_, ?_⟩
  · have h : (validateResult result requirements).is_valid
        = decide ((validateResult result requirements).errors.length = 0) := rfl
    rw [h]
    simp [List.length_eq_zero]
  · intro k hk
    obtain ⟨hlen, hwarn⟩ := validateResult_addKey result requirements k hk
    rw [validateResult_quality result (addRequiredKey requirements k),
      validateResult_quality result requirements, hlen, hwarn]
    refine max_le_max (le_refl 0) (min_le_min (le_refl 1) ?_)
    push_cast
    linarith

/-- Witness for C8 at a concrete result and requirement set. -/
theorem claim8_witness :
    alLookup sampleAgg.outputs "missing" = none
    ∧ (validateResult sampleAgg (addRequiredKey sampleReqs "missing")).quality_score
        ≤ (validateResult sampleAgg sampleReqs).quality_score :=
  ⟨rfl, (claim8_quality_formula_and_monotonicity sampleAgg sampleReqs).2.2 "missing" rfl⟩

/-! ## Helper lemmas: merge strategy -/

lemma foldl_fst_eq {β γ δ : Type} (f : γ × δ → β → γ × δ) (g : γ → β → γ)
    (hfg : ∀ a b, (f a b).1 = g a.1 b) :
    ∀ (l : List β) (acc : γ × δ), (l.foldl f acc).1 = l.foldl g acc.1 := by
  intro l
  induction l with
  | nil => intro acc; rfl
  | cons b bs ih =>
    intro acc
    rw [List.foldl_cons, List.foldl_cons, ih (f acc b), hfg acc b]

lemma mergeOne_fst (outputs : List AgentOutput)
    (acc : List (String × Value) × List Conflict) (o : AgentOutput) :
    (mergeOne outputs acc o).1 = alUpdate acc.1 o.output_data := by
  unfold mergeOne alUpdate
  exact foldl_fst_eq _ _ (fun a b => rfl) o.output_data acc

lemma mergeFold_fst (outputs os : List AgentOutput)
    (acc : List (String × Value) × List Conflict) :
    (os.foldl (mergeOne outputs) acc).1
      = os.foldl (fun m o => alUpdate m o.output_data) acc.1 :=
  foldl_fst_eq (mergeOne outputs) (fun m o => alUpdate m o.output_data)
    (fun a b => mergeOne_fst outputs a b) os acc

lemma foldl_alUpdate_bind (os : List AgentOutput) (m : List (String × Value)) :
    os.foldl (fun m o => alUpdate m o.output_data) m
      = alUpdate m (os.flatMap (fun o => o.output_data)) := by
  induction os generalizing m with
  | nil => rfl
  | cons o os ih =>
    rw [List.foldl_cons, ih, List.flatMap_cons]
    unfold alUpdate
    rw [List.foldl_append]

lemma mergeStrategy_lookup (outputs : List AgentOutput) (key : String) :
    alLookup (mergeStrategy outputs).outputs key
      = lookupLast (outputs.flatMap (fun o => o.output_data)) key := by
  have h1 : (mergeStrategy outputs).outputs
      = alUpdate [] (outputs.flatMap (fun o => o.output_data)) := by
    show (outputs.foldl (mergeOne outputs) ([], [])).1 = _
    rw [mergeFold_fst, foldl_alUpdate_bind]
  rw [h1, alLookup_alUpdate]
  cases hlw : lookupLast (outputs.flatMap (fun o => o.output_data)) key <;>
    simp [Option.orElse, alLookup]

lemma mergeWrites_inv (outputs : List AgentOutput) (o : AgentOutput) (ho : o ∈ outputs) :
    ∀ (writes : List (String × Value)), (∀ kv ∈ writes, kv ∈ o.output_data) →
    ∀ (acc : List (String × Value) × List Conflict),
      (∀ key v, alLookup acc.1 key = some v →
        ∃ o', o' ∈ outputs ∧ (key, v) ∈ o'.output_data) →
      (∀ c ∈ acc.2, mergeConflictWitnessed outputs c) →
      (∀ key v,
        alLookup (writes.foldl (fun acc kv =>
          let conflicts :=
            match alLookup acc.1 kv.1 with
            | some mv =>
              if mv ≠ kv.2 then
                acc.2 ++ [Conflict.mk kv.1 [mv, kv.2]
                  [firstAgentFor outputs kv.1 mv, o.agent_id] []]
              else acc.2
            | none => acc.2
          (alSet acc.1 kv.1 kv.2, conflicts)) acc).1 key = some v →
        ∃ o', o' ∈ outputs ∧ (key, v) ∈ o'.output_data)
      ∧ (∀ c ∈ (writes.foldl (fun acc kv =>
          let conflicts :=
            match alLookup acc.1 kv.1 with
            | some mv =>
              if mv ≠ kv.2 then
                acc.2 ++ [Conflict.mk kv.1 [mv, kv.2]
                  [firstAgentFor outputs kv.1 mv, o.agent_id] []]
              else acc.2
            | none => acc.2
          (alSet acc.1 kv.1 kv.2, conflicts)) acc).2,
        mergeConflictWitnessed outputs c) := by
  intro writes
  induction writes with
  | nil =>
    intro _ acc hm hc
    exact ⟨hm, hc⟩
  | cons kv ws ih =>
    intro hw acc hm hc
    rw [List.foldl_cons]
    refine ih (fun kv' h => hw kv' (List.mem_cons_of_mem _ h)) _ ?_ ?_
    · intro key v hkey
      have hkey' : alLookup (alSet acc.1 kv.1 kv.2) key = some v := hkey
      rw [alLookup_alSet] at hkey'
      by_cases hk : key = kv.1
      · rw [if_pos hk] at hkey'
        refine ⟨o, ho, ?_⟩
        have hkv : (key, v) = kv := by
          rw [hk, ← Option.some.inj hkey']
        rw [hkv]
        exact hw kv (List.mem_cons_self _ _)
      · rw [if_neg hk] at hkey'
        exact hm key v hkey'
    · intro c hcmem
      have hcm : c ∈ (match alLookup acc.1 kv.1 with
          | some mv =>
            if mv ≠ kv.2 then
              acc.2 ++ [Conflict.mk kv.1 [mv, kv.2]
                [firstAgentFor outputs kv.1 mv, o.agent_id] []]
            else acc.2
          | none => acc.2) := hcmem
      rcases hl : alLookup acc.1 kv.1 with _ | mv
      · rw [hl] at hcm
        exact hc c hcm
      · rw [hl] at hcm
        have hcm2 : c ∈ (if mv ≠ kv.2 then
            acc.2 ++ [Conflict.mk kv.1 [mv, kv.2]
              [firstAgentFor outputs kv.1 mv, o.agent_id] []]
          else acc.2) := hcm
        by_cases hv : mv = kv.2
        · rw [if_neg (not_not_intro hv)] at hcm2
          exact hc c hcm2
        · rw [if_pos hv] at hcm2
          rcases List.mem_append.mp hcm2 with hold | hnew
          · exact hc c hold
          · have hceq : c = Conflict.mk kv.1 [mv, kv.2]
                [firstAgentFor outputs kv.1 mv, o.agent_id] [] := by
              simpa using hnew
            subst hceq
            refine ⟨mv, kv.2, o.agent_id, rfl, hv, ⟨o, ho, rfl, ?_⟩, ?_⟩
            · have : ((kv.1, kv.2) : String × Value) = kv := rfl
              rw [this]
              exact hw kv (List.mem_cons_self _ _)
            · exact hm kv.1 mv hl

lemma mergeOne_inv (outputs : List AgentOutput) (o : AgentOutput) (ho : o ∈ outputs)
    (acc : List (String × Value) × List Conflict)
    (hm : ∀ key v, alLookup acc.1 key = some v →
      ∃ o', o' ∈ outputs ∧ (key, v) ∈ o'.output_data)
    (hc : ∀ c ∈ acc.2, mergeConflictWitnessed outputs c) :
    (∀ key v, alLookup (mergeOne outputs acc o).1 key = some v →
      ∃ o', o' ∈ outputs ∧ (key, v) ∈ o'.output_data)
    ∧ (∀ c ∈ (mergeOne outputs acc o).2, mergeConflictWitnessed outputs c) :=
  mergeWrites_inv outputs o ho o.output_data (fun _ h => h) acc hm hc

lemma mergeFold_inv (outputs : List AgentOutput) :
    ∀ (os : List AgentOutput), (∀ x ∈ os, x ∈ outputs) →
    ∀ (acc : List (String × Value) × List Conflict),
      (∀ key v, alLookup acc.1 key = some v →
        ∃ o', o' ∈ outputs ∧ (key, v) ∈ o'.output_data) →
      (∀ c ∈ acc.2, mergeConflictWitnessed outputs c) →
      ∀ c ∈ (os.foldl (mergeOne outputs) acc).2, mergeConflictWitnessed outputs c := by
  intro os
  induction os with
  | nil =>
    intro _ acc _ hc
    exact hc
  | cons o os ih =>
    intro hos acc hm hc
    rw [List.foldl_cons]
    have hstep := mergeOne_inv outputs o (hos o (List.mem_cons_self _ _)) acc hm hc
    exact ih (fun x hx => hos x (List.mem_cons_of_mem _ hx)) _ hstep.1 hstep.2

/-- C3 counterexample: three contributors write three distinct values for
the same key.  The second conflict entry records `["v2", "v3"]` — the
currently merged value and the new one — not `["v1", "v3"]`, which is
what the claim's "first value ever written for that key" would demand. -/
theorem claim3_counterexample :
    (mergeStrategy [mergeOut1, mergeOut2, mergeOut3]).conflicts.map Conflict.values
      = [[Value.str "v1", Value.str "v2"], [Value.str "v2", Value.str "v3"]]
    ∧ ¬ ((mergeStrategy [mergeOut1, mergeOut2, mergeOut3]).conflicts.map Conflict.values
      = [[Value.str "v1", Value.str "v2"], [Value.str "v1", Value.str "v3"]]) := by
  decide

/-- C3 (amended): every MERGE collision produces a conflict entry
recording the key, the value merged for the key at collision time (for a
third or later write of the key this is the most recent previous value,
not necessarily the first ever written) and the new value, plus two agent
ids — the first listed agent whose output for the key equals the
previously merged value, and the new contributor; both recorded values
were actually written for that key; and the last-listed agent's value
wins in the merged output map (single-pass last-write-wins). -/
theorem claim3_merge_conflicts_record_current_value :
    (∀ (outputs : List AgentOutput) (key : String),
      alLookup (mergeStrategy outputs).outputs key
        = lookupLast (outputs.flatMap (fun o => o.output_data)) key)
    ∧ (∀ (outputs : List AgentOutput), ∀ c ∈ (mergeStrategy outputs).conflicts,
      mergeConflictWitnessed outputs c)
    ∧ (mergeStrategy [mergeOut1, mergeOut2, mergeOut3]).conflicts
        = [Conflict.mk "k" [Value.str "v1", Value.str "v2"] ["a1", "a2"] [],
           Conflict.mk "k" [Value.str "v2", Value.str "v3"] ["a2", "a3"] []]
    ∧ alLookup (mergeStrategy [mergeOut1, mergeOut2, mergeOut3]).outputs "k"
        = some (Value.str "v3") := by
  refine ⟨mergeStrategy_lookup, ?_, by decide, by decide⟩
  intro outputs c hcm
  have h : ∀ c ∈ (outputs.foldl (mergeOne outputs) ([], [])).2,
      mergeConflictWitnessed outputs c :=
    mergeFold_inv outputs outputs (fun _ hx => hx) ([], [])
      (fun key v hkv => by exact absurd hkv (by simp [alLookup]))
      (fun c hc => absurd hc (by simp))
  exact h c hcm

/-- Witness for C3 (amended): the second conflict of the concrete
three-contributor run satisfies the recorded-conflict shape. -/
theorem claim3_witness :
    (Conflict.mk "k" [Value.str "v2", Value.str "v3"] ["a2", "a3"] [])
      ∈ (mergeStrategy [mergeOut1, mergeOut2, mergeOut3]).conflicts
    ∧ mergeConflictWitnessed [mergeOut1, mergeOut2, mergeOut3]
        (Conflict.mk "k" [Value.str "v2", Value.str "v3"] ["a2", "a3"] []) :=
  ⟨by decide,
   claim3_merge_conflicts_record_current_value.2.1 [mergeOut1, mergeOut2, mergeOut3]
     (Conflict.mk "k" [Value.str "v2", Value.str "v3"] ["a2", "a3"] []) (by decide)⟩

/-! ## Helper lemmas: role-assignment uniqueness and statuses -/

lemma assignRole_id (a : Agent) (role : Role) :
    ((assignRole a role).1).agent_id = a.agent_id := by
  unfold assignRole
  split <;> rfl

lemma pickBest_fold_inv (role : Role) :
    ∀ (l : List Agent) (acc : Option Agent × Nat) (a : Agent),
      (l.foldl (fun acc agent =>
        if canPerformRole agent role then
          if overlapScore agent role > acc.2 then (some agent, overlapScore agent role)
          else acc
        else acc) acc).1 = some a →
      acc.1 = some a ∨ (a ∈ l ∧ canPerformRole a role = true) := by
  intro l
  induction l with
  | nil =>
    intro acc a h
    exact Or.inl h
  | cons x xs ih =>
    intro acc a h
    rw [List.foldl_cons] at h
    rcases ih _ a h with hacc | ⟨hmem, hcan⟩
    · by_cases hcp : canPerformRole x role
      · by_cases hsc : overlapScore x role > acc.2
        · rw [if_pos hcp, if_pos hsc] at hacc
          have hax : a = x := (Option.some.inj hacc).symm
          subst hax
          exact Or.inr ⟨List.mem_cons_self _ _, hcp⟩
        · rw [if_pos hcp, if_neg hsc] at hacc
          exact Or.inl hacc
      · rw [if_neg hcp] at hacc
        exact Or.inl hacc
    · exact Or.inr ⟨List.mem_cons_of_mem _ hmem, hcan⟩

lemma pickBest_spec (available : List Agent) (role : Role) (a : Agent)
    (h : (pickBest available role).1 = some a) :
    a ∈ available ∧ canPerformRole a role = true := by
  rcases pickBest_fold_inv role available (none, 0) a h with hacc | hgood
  · exact absurd hacc (by simp)
  · exact hgood

lemma mem_split_first (a : Agent) (l : List Agent) (h : a ∈ l) :
    ∃ l₁ l₂, l = l₁ ++ a :: l₂ ∧ a ∉ l₁ := by
  induction l with
  | nil => exact absurd h (List.not_mem_nil a)
  | cons x xs ih =>
    by_cases hx : x = a
    · exact ⟨[], xs, by rw [hx]; rfl, List.not_mem_nil a⟩
    · have hmem : a ∈ xs := by
        rcases List.mem_cons.mp h with h1 | h2
        · exact absurd h1.symm hx
        · exact h2
      obtain ⟨l₁, l₂, heq, hnot⟩ := ih hmem
      refine ⟨x :: l₁, l₂, by rw [heq]; rfl, ?_⟩
      intro hmemc
      rcases List.mem_cons.mp hmemc with h1 | h2
      · exact hx h1.symm
      · exact hnot h2

lemma replaceFirst_append (l₁ l₂ : List Agent) (a b : Agent) (h : a ∉ l₁) :
    replaceFirst (l₁ ++ a :: l₂) a b = l₁ ++ b :: l₂ := by
  induction l₁ with
  | nil => simp [replaceFirst]
  | cons x xs ih =>
    have hx : ¬ x = a := fun hh => h (by rw [hh]; exact List.mem_cons_self _ _)
    simp only [List.cons_append, replaceFirst, if_neg hx, List.append_eq]
    rw [ih (fun hm => h (List.mem_cons_of_mem _ hm))]

lemma removeFirst_append (l₁ l₂ : List Agent) (b : Agent) (h : b ∉ l₁) :
    removeFirst (l₁ ++ b :: l₂) b = l₁ ++ l₂ := by
  induction l₁ with
  | nil => simp [removeFirst]
  | cons x xs ih =>
    have hx : ¬ x = b := fun hh => h (by rw [hh]; exact List.mem_cons_self _ _)
    simp only [List.cons_append, removeFirst, if_neg hx, List.append_eq]
    rw [ih (fun hm => h (List.mem_cons_of_mem _ hm))]

lemma consumeAgent_eq (l₁ l₂ : List Agent) (best assigned : Agent)
    (hb : best ∉ l₁) (ha : assigned ∉ l₁) :
    consumeAgent (l₁ ++ best :: l₂) best assigned = l₁ ++ l₂ := by
  unfold consumeAgent
  rw [replaceFirst_append l₁ l₂ best assigned hb, removeFirst_append l₁ l₂ assigned ha]

lemma assignRolesInternal_perm (roles : List Role) :
    ∀ (available : List Agent), ((available.map Agent.agent_id).Nodup) →
      (((assignRolesInternal roles available).1.map (fun p => p.2.agent_id))
        ++ ((assignRolesInternal roles available).2.map Agent.agent_id)).Perm
        (available.map Agent.agent_id) := by
  induction roles with
  | nil =>
    intro available _
    simp [assignRolesInternal]
  | cons role rest ih =>
    intro available h
    cases hp : (pickBest available role).1 with
    | none =>
      simp only [assignRolesInternal, hp]
      exact ih available h
    | some best =>
      obtain ⟨hmem, _⟩ := pickBest_spec available role best hp
      obtain ⟨l₁, l₂, heq, hnotmem⟩ := mem_split_first best available hmem
      have hid : ((assignRole best role).1).agent_id = best.agent_id := assignRole_id best role
      have hidnot : best.agent_id ∉ l₁.map Agent.agent_id := by
        intro hin
        rw [heq] at h
        simp only [List.map_append, List.map_cons] at h
        rcases List.nodup_append.mp h with ⟨_, _, hdisj⟩
        exact hdisj hin (List.mem_cons_self _ _)
      have hanotmem : (assignRole best role).1 ∉ l₁ := by
        intro hin
        exact hidnot (by
          rw [← hid]
          exact List.mem_map_of_mem Agent.agent_id hin)
      have hcons : consumeAgent available best ((assignRole best role).1) = l₁ ++ l₂ := by
        rw [heq]
        exact consumeAgent_eq l₁ l₂ best _ hnotmem hanotmem
      have hnd : ((l₁ ++ l₂).map Agent.agent_id).Nodup := by
        rw [heq] at h
        refine List.Sublist.nodup (List.Sublist.map Agent.agent_id ?_) h
        exact List.Sublist.append_left (List.sublist_cons_self best l₂) l₁
      have ihc := ih (l₁ ++ l₂) hnd
      simp only [assignRolesInternal, hp, hcons, List.map_cons, List.cons_append]
      refine List.Perm.trans (List.Perm.cons _ ihc) ?_
      rw [heq]
      simp only [List.map_append, List.map_cons, hid]
      exact List.perm_middle.symm

lemma assignRolesInternal_ids_nodup (roles : List Role) (available : List Agent)
    (h : (available.map Agent.agent_id).Nodup) :
    ((assignRolesInternal roles available).1.map (fun p => p.2.agent_id)).Nodup := by
  have hperm := assignRolesInternal_perm roles available h
  have hnd := (List.Perm.nodup_iff hperm).mpr h
  exact List.Nodup.of_append_left hnd

lemma assignRolesInternal_status (roles : List Role) :
    ∀ (available : List Agent) (p : String × Agent),
      p ∈ (assignRolesInternal roles available).1 → p.2.status = "assigned" := by
  induction roles with
  | nil =>
    intro available p hp
    exact absurd hp (List.not_mem_nil p)
  | cons role rest ih =>
    intro available p hp
    cases hpick : (pickBest available role).1 with
    | none =>
      simp only [assignRolesInternal, hpick] at hp
      exact ih available p hp
    | some best =>
      obtain ⟨_, hcan⟩ := pickBest_spec available role best hpick
      simp only [assignRolesInternal, hpick] at hp
      rcases List.mem_cons.mp hp with hhead | htail
      · rw [hhead]
        simp [assignRole, hcan]
      · exact ih _ p htail

lemma pickBestPublic_cons (a : Agent) (rest : List Agent)
    (assignments : List (Agent × Role)) (roleName : String) :
    pickBestPublic (a :: rest) assignments roleName
      = Except.error "unhashable type: 'Agent'" := rfl

lemma assignRolesPublic_error (agents : List Agent) (requirements : RoleRequirements)
    (hroles : requirements.required_roles ≠ []) (hagents : agents ≠ []) :
    assignRolesPublic agents requirements
      = Except.error "unhashable type: 'Agent'" := by
  obtain ⟨rn, rns, hr⟩ := List.exists_cons_of_ne_nil hroles
  obtain ⟨a, as, ha⟩ := List.exists_cons_of_ne_nil hagents
  unfold assignRolesPublic
  rw [hr, ha]
  simp [List.foldlM, pickBestPublic_cons, Bind.bind, Except.bind]

lemma assignRolesPublic_nil_agents (roleNames : List String) :
    ∀ (assignments : List (Agent × Role)),
      (roleNames.foldlM (fun assignments roleName => do
        let best ← pickBestPublic [] assignments roleName
        match best.1 with
        | some b => pure (assignments ++ [(b, Role.mk roleName [] [] [])])
        | none => pure assignments) assignments)
        = Except.ok assignments := by
  induction roleNames with
  | nil =>
    intro assignments
    rfl
  | cons rn rns ih =>
    intro assignments
    exact ih assignments

lemma assignRolesPublic_ok (agents : List Agent) (requirements : RoleRequirements)
    (r : List (Agent × Role))
    (h : assignRolesPublic agents requirements = Except.ok r) : r = [] := by
  cases agents with
  | nil =>
    have hok : assignRolesPublic [] requirements = Except.ok [] :=
      assignRolesPublic_nil_agents requirements.required_roles []
    rw [hok] at h
    exact (Except.ok.inj h).symm
  | cons a as =>
    cases hreq : requirements.required_roles with
    | nil =>
      have hok : assignRolesPublic (a :: as) requirements = Except.ok [] := by
        unfold assignRolesPublic
        rw [hreq]
        rfl
      rw [hok] at h
      exact (Except.ok.inj h).symm
    | cons rn rns =>
      have herr := assignRolesPublic_error (a :: as) requirements
        (by rw [hreq]; simp) (by simp)
      rw [herr] at h
      exact Except.noConfusion h

/-- C4: the claimed guarantees hold on the internal role-list path
(`_assign_roles`): given a pool with distinct agent ids, no agent id is
mapped to two roles, and every mapped agent has status assigned.  The
public requirements path (`assign_roles`) can never exhibit the claimed
behaviour at all: `Agent` is an unhashable dataclass used as a dict key,
so any call with at least one required role and at least one agent
raises `TypeError` before any agent is selected, and any call that does
return returns the empty mapping; the concrete failing input (one agent,
one required role) evaluates to the raised exception. -/
theorem claim4_internal_holds_public_raises :
    (∀ (roles : List Role) (agents : List Agent),
      (agents.map Agent.agent_id).Nodup →
      ((assignRolesInternal roles agents).1.map (fun p => p.2.agent_id)).Nodup)
    ∧ (∀ (roles : List Role) (agents : List Agent) (p : String × Agent),
      p ∈ (assignRolesInternal roles agents).1 → p.2.status = "assigned")
    ∧ (∀ (agents : List Agent) (requirements : RoleRequirements),
      requirements.required_roles ≠ [] → agents ≠ [] →
      assignRolesPublic agents requirements
        = Except.error "unhashable type: 'Agent'")
    ∧ (∀ (agents : List Agent) (requirements : RoleRequirements)
        (r : List (Agent × Role)),
      assignRolesPublic agents requirements = Except.ok r → r = [])
    ∧ assignRolesPublic [capAgent] reqOneRole
        = Except.error "unhashable type: 'Agent'" := by
  refine ⟨?_, ?_, ?_, ?_, rfl⟩
  · intro roles agents h
    exact assignRolesInternal_ids_nodup roles agents h
  · intro roles agents p hp
    exact assignRolesInternal_status roles agents p hp
  · intro agents requirements hroles hagents
    exact assignRolesPublic_error agents requirements hroles hagents
  · intro agents requirements r h
    exact assignRolesPublic_ok agents requirements r h

/-- Witness for C4 at concrete inputs on both paths: the internal path
assigns the writer agent with status assigned; the public path raises on
one agent plus one required role, and returns the empty mapping when the
pool is empty. -/
theorem claim4_witness :
    ([writerAgent].map Agent.agent_id).Nodup
    ∧ ((assignRolesInternal [writerRole] [writerAgent]).1.map
        (fun p => p.2.agent_id)).Nodup
    ∧ ("writer", (assignRole writerAgent writerRole).1)
        ∈ (assignRolesInternal [writerRole] [writerAgent]).1
    ∧ ((assignRole writerAgent writerRole).1).status = "assigned"
    ∧ reqOneRole.required_roles ≠ []
    ∧ ([capAgent] : List Agent) ≠ []
    ∧ assignRolesPublic [capAgent] reqOneRole
        = Except.error "unhashable type: 'Agent'"
    ∧ assignRolesPublic [] reqOneRole = Except.ok []
    ∧ ([] : List (Agent × Role)) = [] :=
  ⟨by decide,
   claim4_internal_holds_public_raises.1 [writerRole] [writerAgent] (by decide),
   by decide,
   claim4_internal_holds_public_raises.2.1 [writerRole] [writerAgent]
     ("writer", (assignRole writerAgent writerRole).1) (by decide),
   by decide,
   by decide,
   claim4_internal_holds_public_raises.2.2.1 [capAgent] reqOneRole
     (by decide) (by decide),
   rfl,
   claim4_internal_holds_public_raises.2.2.2.1 [] reqOneRole [] rfl⟩

/-! ## Helper lemmas: vote winner selection -/

lemma argmax_fold (rest : List (String × Nat)) :
    ∀ (x : String × Nat),
      (rest.foldl (fun best y => if y.2 > best.2 then y else best) x) ∈ x :: rest
      ∧ x.2 ≤ (rest.foldl (fun best y => if y.2 > best.2 then y else best) x).2
      ∧ ∀ p ∈ rest, p.2 ≤ (rest.foldl (fun best y => if y.2 > best.2 then y else best) x).2 := by
  induction rest with
  | nil =>
    intro x
    refine ⟨List.mem_cons_self _ _, le_refl _, ?_⟩
    intro p hp
    exact absurd hp (List.not_mem_nil p)
  | cons y ys ih =>
    intro x
    rw [List.foldl_cons]
    by_cases hyx : y.2 > x.2
    · rw [if_pos hyx]
      obtain ⟨hmem, hle, hall⟩ := ih y
      refine ⟨List.mem_cons_of_mem x hmem, le_trans (le_of_lt hyx) hle, ?_⟩
      intro p hp
      rcases List.mem_cons.mp hp with h | h
      · rw [h]; exact hle
      · exact hall p h
    · rw [if_neg hyx]
      obtain ⟨hmem, hle, hall⟩ := ih x
      refine ⟨?_, hle, ?_⟩
      · rcases List.mem_cons.mp hmem with h | h
        · rw [h]; exact List.mem_cons_self _ _
        · exact List.mem_cons_of_mem x (List.mem_cons_of_mem y h)
      · intro p hp
        rcases List.mem_cons.mp hp with h | h
        · rw [h]; exact le_trans (Nat.le_of_not_lt hyx) hle
        · exact hall p h

lemma argmaxFirst_spec (kvotes : List (String × Nat)) (h : kvotes ≠ []) :
    ∃ w cw, argmaxFirst kvotes = some (w, cw) ∧ (w, cw) ∈ kvotes
      ∧ ∀ p ∈ kvotes, p.2 ≤ cw := by
  cases kvotes with
  | nil => exact absurd rfl h
  | cons x rest =>
    have harg : argmaxFirst (x :: rest)
        = some (rest.foldl (fun best y => if y.2 > best.2 then y else best) x) := rfl
    obtain ⟨hmem, hle, hall⟩ := argmax_fold rest x
    refine ⟨(rest.foldl (fun best y => if y.2 > best.2 then y else best) x).1,
      (rest.foldl (fun best y => if y.2 > best.2 then y else best) x).2,
      by rw [Prod.mk.eta]; exact harg, by simpa using hmem, ?_⟩
    intro p hp
    rcases List.mem_cons.mp hp with h1 | h1
    · rw [h1]; exact hle
    · exact hall p h1

lemma foldl_max_le (c : Nat) :
    ∀ (l : List (String × Nat)) (init : Nat), init ≤ c → (∀ p ∈ l, p.2 ≤ c) →
      l.foldl (fun acc p => max acc p.2) init ≤ c := by
  intro l
  induction l with
  | nil => intro init h _; exact h
  | cons y ys ih =>
    intro init hinit hall
    rw [List.foldl_cons]
    exact ih (max init y.2) (max_le hinit (hall y (List.mem_cons_self _ _)))
      (fun p hp => hall p (List.mem_cons_of_mem _ hp))

lemma init_le_foldl_max :
    ∀ (l : List (String × Nat)) (init : Nat),
      init ≤ l.foldl (fun acc p => max acc p.2) init := by
  intro l
  induction l with
  | nil => intro init; exact le_refl _
  | cons y ys ih =>
    intro init
    rw [List.foldl_cons]
    exact le_trans (le_max_left init y.2) (ih (max init y.2))

lemma mem_le_foldl_max (p : String × Nat) :
    ∀ (l : List (String × Nat)) (init : Nat), p ∈ l →
      p.2 ≤ l.foldl (fun acc p => max acc p.2) init := by
  intro l
  induction l with
  | nil => intro init hp; exact absurd hp (List.not_mem_nil p)
  | cons y ys ih =>
    intro init hp
    rw [List.foldl_cons]
    rcases List.mem_cons.mp hp with h | h
    · rw [h]
      exact le_trans (le_max_right init y.2) (init_le_foldl_max ys (max init y.2))
    · exact ih (max init y.2) h

lemma maxCount_eq (kvotes : List (String × Nat)) (w : String) (cw : Nat)
    (hmem : (w, cw) ∈ kvotes) (hall : ∀ p ∈ kvotes, p.2 ≤ cw) :
    maxCount kvotes = cw :=
  le_antisymm (foldl_max_le cw kvotes 0 (Nat.zero_le cw) hall)
    (mem_le_foldl_max (w, cw) kvotes 0 hmem)

/-- C6: under VOTE, the result's value for each tallied key is the
stringified winner, whose vote count is the maximum over all competing
values' counts for that key; the overall confidence is the sum of the
per-key maximal counts divided by the sum of all counts; and on the
three-contributor `summary` example VOTE picks `"x"` with
confidence 2/3. -/
theorem claim6_vote_winner_has_max_count :
    (∀ (outputs : List AgentOutput) (key : String) (kvotes : List (String × Nat)),
      alLookup (tallyVotes outputs) key = some kvotes → kvotes ≠ [] →
      alLookup (voteStrategy outputs).outputs key = some (Value.str (voteWinner kvotes))
      ∧ ∃ cw, (voteWinner kvotes, cw) ∈ kvotes ∧ cw = maxCount kvotes
          ∧ ∀ p ∈ kvotes, p.2 ≤ cw)
    ∧ (∀ (outputs : List AgentOutput), 0 < totalVotes (tallyVotes outputs) →
      (voteStrategy outputs).confidence
        = (winningVotes (tallyVotes outputs) : ℚ) / (totalVotes (tallyVotes outputs) : ℚ))
    ∧ (voteStrategy [voteOutX1, voteOutX2, voteOutY]).outputs
        = [("summary", Value.str "x")]
    ∧ (voteStrategy [voteOutX1, voteOutX2, voteOutY]).confidence = 2 / 3 := by
  refine ⟨?_, ?_, by decide, ?_⟩
  · intro outputs key kvotes htal hne
    constructor
    · have hh : alLookup (voteStrategy outputs).outputs key
          = (alLookup (tallyVotes outputs) key).map (fun kv => Value.str (voteWinner kv)) :=
        alLookup_map_snd (tallyVotes outputs) (fun kv => Value.str (voteWinner kv)) key
      rw [hh, htal]
      rfl
    · obtain ⟨w, cw, harg, hmem, hall⟩ := argmaxFirst_spec kvotes hne
      have hwin : voteWinner kvotes = w := by
        rw [voteWinner, harg]
        rfl
      refine ⟨cw, ?_, (maxCount_eq kvotes w cw hmem hall).symm, hall⟩
      rw [hwin]
      exact hmem
  · intro outputs hpos
    have hconf : (voteStrategy outputs).confidence
        = if totalVotes (tallyVotes outputs) > 0 then
            ((winningVotes (tallyVotes outputs) : ℚ) / (totalVotes (tallyVotes outputs) : ℚ))
          else 0 := rfl
    rw [hconf, if_pos hpos]
  · have h1 : totalVotes (tallyVotes [voteOutX1, voteOutX2, voteOutY]) = 3 := by decide
    have h2 : winningVotes (tallyVotes [voteOutX1, voteOutX2, voteOutY]) = 2 := by decide
    have hconf : (voteStrategy [voteOutX1, voteOutX2, voteOutY]).confidence
        = if totalVotes (tallyVotes [voteOutX1, voteOutX2, voteOutY]) > 0 then
            ((winningVotes (tallyVotes [voteOutX1, voteOutX2, voteOutY]) : ℚ)
              / (totalVotes (tallyVotes [voteOutX1, voteOutX2, voteOutY]) : ℚ))
          else 0 := rfl
    rw [hconf, h1, h2, if_pos (by norm_num)]
    norm_num

/-- Witness for C6 at the three-contributor `summary` example. -/
theorem claim6_witness :
    alLookup (tallyVotes [voteOutX1, voteOutX2, voteOutY]) "summary"
      = some [("x", 2), ("y", 1)]
    ∧ (([("x", 2), ("y", 1)] : List (String × Nat)) ≠ [])
    ∧ 0 < totalVotes (tallyVotes [voteOutX1, voteOutX2, voteOutY])
    ∧ (alLookup (voteStrategy [voteOutX1, voteOutX2, voteOutY]).outputs "summary"
        = some (Value.str (voteWinner [("x", 2), ("y", 1)]))
      ∧ ∃ cw, (voteWinner [("x", 2), ("y", 1)], cw) ∈ ([("x", 2), ("y", 1)] : List (String × Nat))
          ∧ cw = maxCount [("x", 2), ("y", 1)]
          ∧ ∀ p ∈ ([("x", 2), ("y", 1)] : List (String × Nat)), p.2 ≤ cw)
    ∧ (voteStrategy [voteOutX1, voteOutX2, voteOutY]).confidence
        = (winningVotes (tallyVotes [voteOutX1, voteOutX2, voteOutY]) : ℚ)
          / (totalVotes (tallyVotes [voteOutX1, voteOutX2, voteOutY]) : ℚ) :=
  ⟨by decide, by decide, by decide,
   claim6_vote_winner_has_max_count.1 [voteOutX1, voteOutX2, voteOutY] "summary"
     [("x", 2), ("y", 1)] (by decide) (by decide),
   claim6_vote_winner_has_max_count.2.1 [voteOutX1, voteOutX2, voteOutY] (by decide)⟩

/-! ## Helper lemmas: consensus strategy -/

lemma alRemove_sublist {α : Type} (l : List (String × α)) (k : String) :
    List.Sublist (alRemove l k) l := by
  induction l with
  | nil => exact List.Sublist.refl _
  | cons hd tl ih =>
    obtain ⟨k', v'⟩ := hd
    by_cases h : k' = k
    · simp only [alRemove, if_pos h]
      exact List.sublist_cons_self (k', v') tl
    · simp only [alRemove, if_neg h]
      exact List.Sublist.cons₂ (k', v') ih

lemma alLookup_of_mem_nodup {α : Type} (l : List (String × α)) (k : String) (v : α)
    (hnd : (l.map Prod.fst).Nodup) (hmem : (k, v) ∈ l) : alLookup l k = some v := by
  induction l with
  | nil => exact absurd hmem (List.not_mem_nil _)
  | cons hd tl ih =>
    simp only [List.map_cons, List.nodup_cons] at hnd
    rcases List.mem_cons.mp hmem with h | h
    · rw [← h]
      simp [alLookup]
    · have hk : ¬ hd.1 = k := by
        intro heq
        exact hnd.1 (heq ▸ List.mem_map_of_mem Prod.fst h)
      obtain ⟨k', v'⟩ := hd
      simp only [alLookup, if_neg hk]
      exact ih hnd.2 h

lemma consensusStep_nodup (fid oid : String)
    (acc : List (String × Value) × List Conflict) (kv : String × Value)
    (hnd : (acc.1.map Prod.fst).Nodup) :
    (((consensusStep fid oid acc kv).1).map Prod.fst).Nodup := by
  rcases hl : alLookup acc.1 kv.1 with _ | cv
  · simp only [consensusStep, hl]
    exact hnd
  · simp only [consensusStep, hl]
    by_cases hcv : cv = kv.2
    · rw [if_neg (not_not_intro hcv)]
      exact hnd
    · rw [if_pos hcv]
      exact List.Sublist.nodup (List.Sublist.map Prod.fst (alRemove_sublist acc.1 kv.1)) hnd

lemma consensusFold_inv (fid oid : String) :
    ∀ (writes : List (String × Value)) (acc : List (String × Value) × List Conflict),
      ((acc.1.map Prod.fst).Nodup) →
      (((writes.foldl (consensusStep fid oid) acc).1.map Prod.fst).Nodup)
      ∧ (∀ key v, alLookup (writes.foldl (consensusStep fid oid) acc).1 key = some v →
          alLookup acc.1 key = some v) := by
  intro writes
  induction writes with
  | nil =>
    intro acc hnd
    exact ⟨hnd, fun _ _ h => h⟩
  | cons kv ws ih =>
    intro acc hnd
    rw [List.foldl_cons]
    obtain ⟨ihnd, ihshr⟩ := ih (consensusStep fid oid acc kv) (consensusStep_nodup fid oid acc kv hnd)
    refine ⟨ihnd, ?_⟩
    intro key v hv
    have hstep := ihshr key v hv
    rcases hl : alLookup acc.1 kv.1 with _ | cv
    · simp only [consensusStep, hl] at hstep
      exact hstep
    · simp only [consensusStep, hl] at hstep
      by_cases hcv : cv = kv.2
      · rw [if_neg (not_not_intro hcv)] at hstep
        exact hstep
      · rw [if_pos hcv] at hstep
        have hstep2 : alLookup (alRemove acc.1 kv.1) key = some v := hstep
        rw [alLookup_alRemove acc.1 kv.1 key hnd] at hstep2
        by_cases hk : key = kv.1
        · rw [if_pos hk] at hstep2
          exact absurd hstep2 (by simp)
        · rw [if_neg hk] at hstep2
          exact hstep2

lemma consensusFold_agrees (fid oid : String) :
    ∀ (writes : List (String × Value)) (acc : List (String × Value) × List Conflict),
      ((acc.1.map Prod.fst).Nodup) →
      ∀ (key : String) (v v' : Value), (key, v') ∈ writes →
        alLookup (writes.foldl (consensusStep fid oid) acc).1 key = some v → v' = v := by
  intro writes
  induction writes with
  | nil =>
    intro acc _ key v v' hmem _
    exact absurd hmem (List.not_mem_nil _)
  | cons kv ws ih =>
    intro acc hnd key v v' hmem hfin
    rw [List.foldl_cons] at hfin
    have hndstep := consensusStep_nodup fid oid acc kv hnd
    rcases List.mem_cons.mp hmem with hhead | htail
    · have hkey : kv.1 = key := by rw [← hhead]
      have hval : kv.2 = v' := by rw [← hhead]
      have hstep := (consensusFold_inv fid oid ws (consensusStep fid oid acc kv) hndstep).2
        key v hfin
      rcases hl : alLookup acc.1 kv.1 with _ | cv
      · simp only [consensusStep, hl] at hstep
        rw [hkey] at hl
        rw [hl] at hstep
        exact Option.noConfusion hstep
      · simp only [consensusStep, hl] at hstep
        by_cases hcv : cv = kv.2
        · rw [if_neg (not_not_intro hcv)] at hstep
          rw [hkey] at hl
          have hcveq : cv = v := Option.some.inj (hl.symm.trans hstep)
          rw [← hval, ← hcv]
          exact hcveq
        · rw [if_pos hcv] at hstep
          have hstep2 : alLookup (alRemove acc.1 kv.1) key = some v := hstep
          rw [alLookup_alRemove acc.1 kv.1 key hnd, if_pos hkey.symm] at hstep2
          exact Option.noConfusion hstep2
    · exact ih (consensusStep fid oid acc kv) hndstep key v v' htail hfin

lemma consensusOuter (fid : String) :
    ∀ (rest : List AgentOutput) (acc : List (String × Value) × List Conflict),
      ((acc.1.map Prod.fst).Nodup) →
      (((rest.foldl (consensusOne fid) acc).1.map Prod.fst).Nodup)
      ∧ (∀ key v, alLookup (rest.foldl (consensusOne fid) acc).1 key = some v →
          alLookup acc.1 key = some v)
      ∧ (∀ o ∈ rest, ∀ (key : String) (v v' : Value), (key, v') ∈ o.output_data →
          alLookup (rest.foldl (consensusOne fid) acc).1 key = some v → v' = v) := by
  intro rest
  induction rest with
  | nil =>
    intro acc hnd
    exact ⟨hnd, fun _ _ h => h, fun o ho => absurd ho (List.not_mem_nil _)⟩
  | cons o os ih =>
    intro acc hnd
    rw [List.foldl_cons]
    have hstep := consensusFold_inv fid o.agent_id o.output_data acc hnd
    obtain ⟨ihnd, ihshr, ihagree⟩ := ih (consensusOne fid acc o) hstep.1
    refine ⟨ihnd, ?_, ?_⟩
    · intro key v hv
      exact hstep.2 key v (ihshr key v hv)
    · intro o' ho' key v v' hmem hfin
      rcases List.mem_cons.mp ho' with h | h
      · subst h
        exact consensusFold_agrees fid o'.agent_id o'.output_data acc hnd key v v' hmem
          (ihshr key v hfin)
      · exact ihagree o' h key v v' hmem hfin

lemma foldl_append_suffix {β : Type} (f : β → List String) :
    ∀ (l : List β) (init : List String),
      ∃ t, l.foldl (fun acc o => acc ++ f o) init = init ++ t := by
  intro l
  induction l with
  | nil =>
    intro init
    exact ⟨[], by simp⟩
  | cons x xs ih =>
    intro init
    rw [List.foldl_cons]
    obtain ⟨t, ht⟩ := ih (init ++ f x)
    exact ⟨f x ++ t, by rw [ht, List.append_assoc]⟩

lemma allKeys_ne_nil (first : AgentOutput) (rest : List AgentOutput)
    (h : first.output_data ≠ []) : allKeys (first :: rest) ≠ [] := by
  unfold allKeys
  rw [List.foldl_cons]
  obtain ⟨t, ht⟩ := foldl_append_suffix (fun o => o.output_data.map Prod.fst) rest
    ([] ++ first.output_data.map Prod.fst)
  rw [ht]
  intro hnil
  rw [List.dedup_eq_nil] at hnil
  have h2 : first.output_data = [] ∧ t = [] := by simpa using hnil
  exact h h2.1

/-- C7: under CONSENSUS, every key present in the result map carries a
value on which every contributor that includes the key agrees; the
confidence is the number of result keys divided by the number of
distinct keys seen across all contributors; and on the two-contributor
example disagreeing on `plan` and agreeing on `budget`, the result is
`{budget: 100}` with one conflict entry for `plan` and confidence 1/2. -/
theorem claim7_consensus_keys_agree :
    (∀ (first : AgentOutput) (rest : List AgentOutput),
      ((first.output_data.map Prod.fst).Nodup) →
      (∀ key v, alLookup (consensusStrategy (first :: rest)).outputs key = some v →
        ∀ o ∈ (first :: rest), ∀ v', (key, v') ∈ o.output_data → v' = v)
      ∧ (first.output_data ≠ [] →
        (consensusStrategy (first :: rest)).confidence
          = ((consensusStrategy (first :: rest)).outputs.length : ℚ)
            / ((allKeys (first :: rest)).length : ℚ)))
    ∧ (consensusStrategy [consOut1, consOut2]).outputs = [("budget", Value.int 100)]
    ∧ (consensusStrategy [consOut1, consOut2]).conflicts
        = [Conflict.mk "plan" [Value.str "p1", Value.str "p2"] ["a1", "a2"] []]
    ∧ (consensusStrategy [consOut1, consOut2]).confidence = 1 / 2 := by
  refine ⟨?_, by decide, by decide, ?_⟩
  · intro first rest hnd
    constructor
    · intro key v hv o ho v' hmem
      have hv' : alLookup
          (rest.foldl (consensusOne first.agent_id) (first.output_data, [])).1 key
          = some v := hv
      obtain ⟨_, hshr, hagree⟩ := consensusOuter first.agent_id rest
        (first.output_data, []) hnd
      rcases List.mem_cons.mp ho with h | h
      · subst h
        have hacc := hshr key v hv'
        have hlook := alLookup_of_mem_nodup o.output_data key v' hnd hmem
        exact Option.some.inj (hlook.symm.trans hacc)
      · exact hagree o h key v v' hmem hv'
    · intro hne
      have hkeys := allKeys_ne_nil first rest hne
      have hkeyse : (allKeys (first :: rest)).isEmpty = false := by
        simpa [List.isEmpty_iff] using hkeys
      have hconf : (consensusStrategy (first :: rest)).confidence
          = if (allKeys (first :: rest)).isEmpty then (0 : ℚ)
            else (((rest.foldl (consensusOne first.agent_id)
                (first.output_data, [])).1.length : ℚ)
              / ((allKeys (first :: rest)).length : ℚ)) := rfl
      rw [hconf, hkeyse]
      simp only [Bool.false_eq_true, if_false]
      rfl
  · have h0 : (allKeys [consOut1, consOut2]).isEmpty = false := rfl
    have hconf : (consensusStrategy [consOut1, consOut2]).confidence
        = if (allKeys [consOut1, consOut2]).isEmpty then (0 : ℚ)
          else (((consensusStrategy [consOut1, consOut2]).outputs.length : ℚ)
            / ((allKeys [consOut1, consOut2]).length : ℚ)) := rfl
    have h1 : (consensusStrategy [consOut1, consOut2]).outputs.length = 1 := rfl
    have h2 : (allKeys [consOut1, consOut2]).length = 2 := rfl
    rw [hconf, h0, h1, h2]
    norm_num

/-- Witness for C7 at the two-contributor plan/budget example. -/
theorem claim7_witness :
    ((consOut1.output_data.map Prod.fst).Nodup)
    ∧ consOut1.output_data ≠ []
    ∧ alLookup (consensusStrategy [consOut1, consOut2]).outputs "budget"
        = some (Value.int 100)
    ∧ (∀ o ∈ ([consOut1, consOut2] : List AgentOutput), ∀ v',
        ("budget", v') ∈ o.output_data → v' = Value.int 100)
    ∧ (consensusStrategy [consOut1, consOut2]).confidence
        = ((consensusStrategy [consOut1, consOut2]).outputs.length : ℚ)
          / ((allKeys [consOut1, consOut2]).length : ℚ) :=
  ⟨by decide, by decide, by decide,
   (claim7_consensus_keys_agree.1 consOut1 [consOut2] (by decide)).1 "budget"
     (Value.int 100) (by decide),
   (claim7_consensus_keys_agree.1 consOut1 [consOut2] (by decide)).2 (by decide)⟩
